import Mathlib

/-!
Shallow embedding of `src/chord.h` (`struct Chord`, LibFM).

Modelling conventions:
* C++ `int` fields (`pitches` entries, `duration`) are modelled as `Int`.
  C++ integer division on `int` truncates toward zero, which is `Int.tdiv`.
* `duration *= 1.5` converts `duration` to `double`, multiplies, and
  truncates toward zero converting back to `int`; for any duration of
  magnitude far below 2^52 this is exactly `Int.tdiv (3 * duration) 2`,
  which is how it is modelled.
* The named duration constants (`one_twenty_eighth_note`,
  `dotted_sixty_fourth_note`, `sixty_fourth_note`) come from
  `constants.h`, which is external configuration not part of the core;
  the operations that consult them take them as explicit parameters.
* Each mutating member function `bool f()` is modelled as a pure function
  `Chord → Bool × Chord` returning the C++ return value together with the
  post-call state of the object.
-/

structure Chord where
  pitches : List Int
  duration : Int
  triplet : Bool
  dotted : Bool
  double_dotted : Bool
  staccato : Bool
  tenuto : Bool
  accent : Bool
  fermata : Bool
  tied : Bool
  slurred : Bool
deriving DecidableEq, Repr

namespace Chord

/-- The field-specifying constructor
`Chord(std::vector<int> pitches, int duration, int triplet = 0, ...)`.
The C++ flag parameters are `int`s implicitly converted to `bool`
(nonzero becomes `true`); every field is initialized from its argument
with no validation. -/
def make (pitches : List Int) (duration : Int)
    (triplet dotted double_dotted staccato tenuto accent fermata tied slurred : Int) :
    Chord :=
  ⟨pitches, duration, triplet != 0, dotted != 0, double_dotted != 0, staccato != 0,
   tenuto != 0, accent != 0, fermata != 0, tied != 0, slurred != 0⟩

/-- Embedding of `Chord::dot()`. Branch structure as in the source: the first branch is
guarded by `!dotted` alone, the second by `dotted && !double_dotted`.
`duration *= 1.5` is `Int.tdiv (3 * duration) 2`; `duration /= 6; duration *= 7`
is `7 * Int.tdiv duration 6`. -/
def dot (one_twenty_eighth_note dotted_sixty_fourth_note : Int) (c : Chord) :
    Bool × Chord :=
  if !c.dotted then
    if c.duration = one_twenty_eighth_note then (false, c)
    else (true, { c with dotted := true, duration := Int.tdiv (3 * c.duration) 2 })
  else if c.dotted && !c.double_dotted then
    if c.duration = dotted_sixty_fourth_note then (false, c)
    else (true, { c with double_dotted := true, duration := 7 * Int.tdiv c.duration 6 })
  else (false, c)

/-- Embedding of `Chord::double_dot()`. `duration /= 4; duration *= 7` is
`7 * Int.tdiv duration 4`. -/
def double_dot (one_twenty_eighth_note sixty_fourth_note : Int) (c : Chord) :
    Bool × Chord :=
  if c.dotted then (false, c)
  else if c.duration = one_twenty_eighth_note ∨ c.duration = sixty_fourth_note then
    (false, c)
  else
    (true, { c with dotted := true, double_dotted := true,
                    duration := 7 * Int.tdiv c.duration 4 })

/-- Embedding of `Chord::put_in_triplet()`. `duration /= 3; duration *= 2` is
`2 * Int.tdiv duration 3`. -/
def put_in_triplet (c : Chord) : Bool × Chord :=
  if c.triplet then (false, c)
  else (true, { c with triplet := true, duration := 2 * Int.tdiv c.duration 3 })

/-- Embedding of `Chord::add_octave()`. The guard reads `pitches[pitches.size()-1]`,
the LAST element; the short-circuiting emptiness test before it means the
`getLastD` default is never consulted. On success the loop adds 12 to
every pitch. -/
def add_octave (c : Chord) : Bool × Chord :=
  if c.pitches.length = 0 ∨ c.pitches.getLastD 0 + 12 > 126 then (false, c)
  else (true, { c with pitches := c.pitches.map (fun p => p + 12) })

/-- Embedding of `Chord::drop_octave()`. The guard reads `pitches[0]`, the FIRST
element; the emptiness test before it means the `headD` default is never
consulted. On success the loop subtracts 12 from every pitch. -/
def drop_octave (c : Chord) : Bool × Chord :=
  if c.pitches.length = 0 ∨ c.pitches.headD 0 - 12 < 0 then (false, c)
  else (true, { c with pitches := c.pitches.map (fun p => p - 12) })

/-- Embedding of `Chord::invert()`. On success the source pushes `pitches[0] + 12` at
the back and then erases the front element, leaving
`tail ++ [pitches[0] + 12]`. -/
def invert (c : Chord) : Bool × Chord :=
  if c.pitches.length < 2 ∨ c.pitches.headD 0 + 12 > 126 then (false, c)
  else (true, { c with pitches := c.pitches.tail ++ [c.pitches.headD 0 + 12] })

/-- The index loop of `Chord::equals`: it is only reached under the
equal-length guard and then compares `pitches[i]` for every index `i`.
The recursion walks both lists in lockstep. -/
def pitchesMatch : List Int → List Int → Bool
  | [], _ => true
  | _, [] => true
  | p :: ps, q :: qs => p == q && pitchesMatch ps qs

/-- Embedding of `Chord::equals(Chord*)`: the chain of early-return field comparisons. -/
def equals (a b : Chord) : Bool :=
  if a.pitches.length ≠ b.pitches.length then false
  else if !pitchesMatch a.pitches b.pitches then false
  else if a.duration ≠ b.duration then false
  else if a.triplet ≠ b.triplet then false
  else if a.dotted ≠ b.dotted then false
  else if a.double_dotted ≠ b.double_dotted then false
  else if a.staccato ≠ b.staccato then false
  else if a.tenuto ≠ b.tenuto then false
  else if a.accent ≠ b.accent then false
  else if a.fermata ≠ b.fermata then false
  else if a.tied ≠ b.tied then false
  else if a.slurred ≠ b.slurred then false
  else true

/-- The pitch-range invariant of the spec: every pitch lies in `[0, 126]`. -/
def pitchesInRange (c : Chord) : Prop :=
  ∀ p ∈ c.pitches, 0 ≤ p ∧ p ≤ 126

instance (c : Chord) : Decidable (pitchesInRange c) :=
  List.decidableBAll _ c.pitches

end Chord

/-- A C-major triad at quarter-note duration (96 ticks), all flags off:
a sorted, in-range sample chord. -/
def cMajor : Chord :=
  ⟨[60, 64, 67], 96, false, false, false, false, false, false, false, false, false⟩

/-- A chord whose pitch sequence is NOT sorted: the last element (60) is not
the highest pitch (120). All pitches lie in `[0, 126]`. -/
def unsortedChord : Chord :=
  ⟨[120, 60], 96, false, false, false, false, false, false, false, false, false⟩

/-- A chord on which every fallible operation fails: no pitches, and every
modifier flag already set. -/
def stuckChord : Chord :=
  ⟨[], 5, true, true, true, true, true, true, true, true, true⟩

/-- A chord with a negative odd duration (constructible, since the
constructor does not validate). -/
def negChord : Chord :=
  ⟨[60], -5, false, false, false, false, false, false, false, false, false⟩

/-- A chord with a positive odd duration. -/
def oddChord : Chord :=
  ⟨[60], 5, false, false, false, false, false, false, false, false, false⟩

/-! ## Helper lemmas -/

/-- Collapse one link of an early-return chain
`if P then false else rest` into a conjunction. -/
theorem ite_false_eq_true (P : Prop) [Decidable P] (x : Bool) :
    ((if P then false else x) = true) ↔ ¬P ∧ x = true := by
  split <;> simp_all

theorem pitchesMatch_refl (xs : List Int) : Chord.pitchesMatch xs xs = true := by
  induction xs with
  | nil => rfl
  | cons x t ih => simp [Chord.pitchesMatch, ih]

/-- Under the equal-length guard, the `equals` index loop accepts exactly
when the two pitch sequences are equal. -/
theorem pitchesMatch_eq_true_iff :
    ∀ xs ys : List Int, xs.length = ys.length →
      (Chord.pitchesMatch xs ys = true ↔ xs = ys) := by
  intro xs
  induction xs with
  | nil =>
    intro ys h
    cases ys with
    | nil => simp [Chord.pitchesMatch]
    | cons y u => simp at h
  | cons x t ih =>
    intro ys h
    cases ys with
    | nil => simp at h
    | cons y u =>
      have hlen : t.length = u.length := by simpa using h
      simp [Chord.pitchesMatch, ih u hlen]

/-- The function `Chord::equals` accepts exactly when the two chords agree on every
field, i.e. when they are equal as values. -/
theorem equals_eq_true_iff (a b : Chord) : Chord.equals a b = true ↔ a = b := by
  obtain ⟨ap, ad, af1, af2, af3, af4, af5, af6, af7, af8, af9⟩ := a
  obtain ⟨bp, bd, bf1, bf2, bf3, bf4, bf5, bf6, bf7, bf8, bf9⟩ := b
  simp only [Chord.equals, ite_false_eq_true, ne_eq, not_not, Bool.not_eq_true,
    Bool.not_eq_false', Chord.mk.injEq, and_true]
  constructor
  · rintro ⟨hlen, hpm, hrest⟩
    exact ⟨(pitchesMatch_eq_true_iff ap bp hlen).mp hpm, hrest⟩
  · rintro ⟨hp, hrest⟩
    subst hp
    exact ⟨rfl, pitchesMatch_refl ap, hrest⟩

/-- In a `≤`-sorted list every element is at most the last element
(`getLastD`, default irrelevant as soon as the list is nonempty). -/
theorem sorted_le_getLastD :
    ∀ (ps : List Int) (d : Int), List.Pairwise (fun p q => p ≤ q) ps →
      ∀ p ∈ ps, p ≤ ps.getLastD d := by
  intro ps
  induction ps with
  | nil => intro d _ p hp; cases hp
  | cons x t ih =>
    intro d hs p hp
    rw [List.getLastD_cons]
    rw [List.pairwise_cons] at hs
    rcases List.mem_cons.mp hp with rfl | hpt
    · rcases List.mem_cons.mp (List.getLastD_mem_cons t p) with hm | hm
      · exact le_of_eq hm.symm
      · exact hs.1 _ hm
    · exact ih x hs.2 p hpt

/-- In a `≤`-sorted list the head (`headD`) is at most every element. -/
theorem sorted_headD_le (ps : List Int) (d : Int)
    (hs : List.Pairwise (fun p q => p ≤ q) ps) :
    ∀ p ∈ ps, ps.headD d ≤ p := by
  cases ps with
  | nil => intro p hp; cases hp
  | cons x t =>
    intro p hp
    rw [List.pairwise_cons] at hs
    rcases List.mem_cons.mp hp with rfl | hpt
    · exact le_refl p
    · exact hs.1 p hpt

/-- Truncating division nests the same way floor division does when all
divisors are positive: `((3*d) /t 2) /t 6 = d /t 4`. -/
theorem tdiv_three_halves_then_six (d : Int) :
    Int.tdiv (Int.tdiv (3 * d) 2) 6 = Int.tdiv d 4 := by
  have hnat : ∀ n : ℕ, 3 * n / 2 / 6 = n / 4 := by
    intro n
    rw [Nat.div_div_eq_div_mul]
    have h12 : (2 : ℕ) * 6 = 3 * 4 := by norm_num
    rw [h12]
    exact Nat.mul_div_mul_left n 4 (by norm_num)
  have key : ∀ n : ℕ, Int.tdiv (Int.tdiv (3 * (n : Int)) 2) 6 = Int.tdiv (n : Int) 4 := by
    intro n
    have h3 : (3 : Int) * (n : Int) = ((3 * n : ℕ) : Int) := by push_cast; ring
    rw [h3,
      show ((3 * n : ℕ) : Int).tdiv 2 = ((3 * n / 2 : ℕ) : Int) from (Int.ofNat_tdiv _ 2).symm,
      show ((3 * n / 2 : ℕ) : Int).tdiv 6 = ((3 * n / 2 / 6 : ℕ) : Int) from
        (Int.ofNat_tdiv _ 6).symm,
      show ((n : ℕ) : Int).tdiv 4 = ((n / 4 : ℕ) : Int) from (Int.ofNat_tdiv _ 4).symm, hnat]
  obtain ⟨n, rfl | rfl⟩ := Int.eq_nat_or_neg d
  · exact key n
  · rw [mul_neg, Int.neg_tdiv, Int.neg_tdiv, Int.neg_tdiv, key n]

/-- For an odd duration the dotted value `(3*d) /t 2` is never an exact
`3/2` multiple: `2 * ((3*d) /t 2) ≠ 3 * d`. -/
theorem odd_dot_not_exact (d : Int) (hd : Odd d) :
    2 * Int.tdiv (3 * d) 2 ≠ 3 * d := by
  intro h
  have h3 : Odd (3 * d) := (by decide : Odd (3 : Int)).mul hd
  have he : Even (3 * d) := ⟨Int.tdiv (3 * d) 2, by omega⟩
  exact (Int.not_odd_iff_even.mpr he) h3

/-- For nonnegative arguments truncating division by 2 agrees with floor
division by 2. -/
theorem tdiv_two_eq_fdiv_two (a : Int) (h : 0 ≤ a) :
    Int.tdiv a 2 = Int.fdiv a 2 := by
  rw [Int.tdiv_eq_ediv h (by norm_num), Int.fdiv_eq_ediv a (by norm_num)]

/-- The operation `dot` leaves the chord untouched whenever it reports failure. -/
theorem dot_fail_unchanged (k128 k64d : Int) (c : Chord) :
    (Chord.dot k128 k64d c).1 = false → (Chord.dot k128 k64d c).2 = c := by
  unfold Chord.dot
  (repeat' split) <;> simp

/-- The operation `double_dot` leaves the chord untouched whenever it reports failure. -/
theorem double_dot_fail_unchanged (k128 k64 : Int) (c : Chord) :
    (Chord.double_dot k128 k64 c).1 = false → (Chord.double_dot k128 k64 c).2 = c := by
  unfold Chord.double_dot
  (repeat' split) <;> simp

/-- The operation `put_in_triplet` leaves the chord untouched whenever it reports failure. -/
theorem put_in_triplet_fail_unchanged (c : Chord) :
    (Chord.put_in_triplet c).1 = false → (Chord.put_in_triplet c).2 = c := by
  unfold Chord.put_in_triplet
  (repeat' split) <;> simp

/-- The operation `add_octave` leaves the chord untouched whenever it reports failure. -/
theorem add_octave_fail_unchanged (c : Chord) :
    (Chord.add_octave c).1 = false → (Chord.add_octave c).2 = c := by
  unfold Chord.add_octave
  (repeat' split) <;> simp

/-- The operation `drop_octave` leaves the chord untouched whenever it reports failure. -/
theorem drop_octave_fail_unchanged (c : Chord) :
    (Chord.drop_octave c).1 = false → (Chord.drop_octave c).2 = c := by
  unfold Chord.drop_octave
  (repeat' split) <;> simp

/-- The operation `invert` leaves the chord untouched whenever it reports failure. -/
theorem invert_fail_unchanged (c : Chord) :
    (Chord.invert c).1 = false → (Chord.invert c).2 = c := by
  unfold Chord.invert
  (repeat' split) <;> simp

/-- The operation `dot` never touches the pitch sequence. -/
theorem dot_pitches_unchanged (k128 k64d : Int) (c : Chord) :
    (Chord.dot k128 k64d c).2.pitches = c.pitches := by
  unfold Chord.dot
  (repeat' split) <;> rfl

/-- The operation `double_dot` never touches the pitch sequence. -/
theorem double_dot_pitches_unchanged (k128 k64 : Int) (c : Chord) :
    (Chord.double_dot k128 k64 c).2.pitches = c.pitches := by
  unfold Chord.double_dot
  (repeat' split) <;> rfl

/-- The operation `put_in_triplet` never touches the pitch sequence. -/
theorem put_in_triplet_pitches_unchanged (c : Chord) :
    (Chord.put_in_triplet c).2.pitches = c.pitches := by
  unfold Chord.put_in_triplet
  (repeat' split) <;> rfl

/-! ## Claim theorems -/

/-- C9: the field-specifying constructor performs no validation. Every
field is stored exactly as supplied (the C++ `int` flag arguments convert
to `bool` as nonzero-is-true), so a chord can be built with a pitch
outside `[0, 126]`, a negative duration, and `double_dotted` set while
`dotted` is clear. -/
theorem c9_constructor_no_validation :
    (∀ (ps : List Int) (d t dt ddt st te ac fe ti sl : Int),
        (Chord.make ps d t dt ddt st te ac fe ti sl).pitches = ps ∧
        (Chord.make ps d t dt ddt st te ac fe ti sl).duration = d ∧
        (Chord.make ps d t dt ddt st te ac fe ti sl).triplet = (t != 0) ∧
        (Chord.make ps d t dt ddt st te ac fe ti sl).dotted = (dt != 0) ∧
        (Chord.make ps d t dt ddt st te ac fe ti sl).double_dotted = (ddt != 0) ∧
        (Chord.make ps d t dt ddt st te ac fe ti sl).staccato = (st != 0) ∧
        (Chord.make ps d t dt ddt st te ac fe ti sl).tenuto = (te != 0) ∧
        (Chord.make ps d t dt ddt st te ac fe ti sl).accent = (ac != 0) ∧
        (Chord.make ps d t dt ddt st te ac fe ti sl).fermata = (fe != 0) ∧
        (Chord.make ps d t dt ddt st te ac fe ti sl).tied = (ti != 0) ∧
        (Chord.make ps d t dt ddt st te ac fe ti sl).slurred = (sl != 0)) ∧
    ((Chord.make [999] (-5) 0 0 1 0 0 0 0 0 0).pitches = [999] ∧
     ¬ Chord.pitchesInRange (Chord.make [999] (-5) 0 0 1 0 0 0 0 0 0) ∧
     (Chord.make [999] (-5) 0 0 1 0 0 0 0 0 0).duration = -5 ∧
     (Chord.make [999] (-5) 0 0 1 0 0 0 0 0 0).double_dotted = true ∧
     (Chord.make [999] (-5) 0 0 1 0 0 0 0 0 0).dotted = false) :=
  ⟨fun _ _ _ _ _ _ _ _ _ _ _ =>
    ⟨rfl, rfl, rfl, rfl, rfl, rfl, rfl, rfl, rfl, rfl, rfl⟩, by decide⟩

/-- C3: `dot()` as a three-branch algebra. With both dot flags clear it
fails exactly at the one-twenty-eighth-note boundary and otherwise sets
`dotted` and multiplies the duration by 1.5 (through `double`, hence
`Int.tdiv (3*d) 2`); with `dotted` set and `double_dotted` clear it fails
exactly at the dotted-sixty-fourth boundary and otherwise sets
`double_dotted` and divides by 6 then multiplies by 7; with both flags set
it fails with no change. -/
theorem c3_dot_three_branch_algebra (k128 k64d : Int) (c : Chord) :
    (c.dotted = false → c.double_dotted = false →
      ((c.duration = k128 → Chord.dot k128 k64d c = (false, c)) ∧
       (c.duration ≠ k128 →
        Chord.dot k128 k64d c =
          (true, { c with dotted := true,
                          duration := Int.tdiv (3 * c.duration) 2 })))) ∧
    (c.dotted = true → c.double_dotted = false →
      ((c.duration = k64d → Chord.dot k128 k64d c = (false, c)) ∧
       (c.duration ≠ k64d →
        Chord.dot k128 k64d c =
          (true, { c with double_dotted := true,
                          duration := 7 * Int.tdiv c.duration 6 })))) ∧
    (c.dotted = true → c.double_dotted = true →
      Chord.dot k128 k64d c = (false, c)) := by
  refine ⟨fun h1 _ => ⟨fun h3 => by simp [Chord.dot, h1, h3],
                       fun h3 => by simp [Chord.dot, h1, h3]⟩,
          fun h1 h2 => ⟨fun h3 => by simp [Chord.dot, h1, h2, h3],
                        fun h3 => by simp [Chord.dot, h1, h2, h3]⟩,
          fun h1 h2 => by simp [Chord.dot, h1, h2]⟩

/-- Witness for C3: dotting the default C-major quarter-note chord takes
the first-branch success path. -/
theorem c3_witness :
    Chord.dot 3 9 cMajor =
      (true, { cMajor with dotted := true,
                           duration := Int.tdiv (3 * cMajor.duration) 2 }) :=
  ((c3_dot_three_branch_algebra 3 9 cMajor).1 rfl rfl).2 (by decide)

/-- C4: every fallible operation that returns `false` leaves every field
of the chord exactly as it was — failure never partially mutates. -/
theorem c4_failure_never_mutates (k128 k64d k64 : Int) (c : Chord) :
    ((Chord.dot k128 k64d c).1 = false → (Chord.dot k128 k64d c).2 = c) ∧
    ((Chord.double_dot k128 k64 c).1 = false → (Chord.double_dot k128 k64 c).2 = c) ∧
    ((Chord.put_in_triplet c).1 = false → (Chord.put_in_triplet c).2 = c) ∧
    ((Chord.add_octave c).1 = false → (Chord.add_octave c).2 = c) ∧
    ((Chord.drop_octave c).1 = false → (Chord.drop_octave c).2 = c) ∧
    ((Chord.invert c).1 = false → (Chord.invert c).2 = c) :=
  ⟨dot_fail_unchanged k128 k64d c, double_dot_fail_unchanged k128 k64 c,
   put_in_triplet_fail_unchanged c, add_octave_fail_unchanged c,
   drop_octave_fail_unchanged c, invert_fail_unchanged c⟩

/-- Witness for C4: on a chord with no pitches and every flag set, all six
operations fail and the chord is returned untouched. -/
theorem c4_witness :
    (Chord.dot 3 9 stuckChord).2 = stuckChord ∧
    (Chord.double_dot 3 6 stuckChord).2 = stuckChord ∧
    (Chord.put_in_triplet stuckChord).2 = stuckChord ∧
    (Chord.add_octave stuckChord).2 = stuckChord ∧
    (Chord.drop_octave stuckChord).2 = stuckChord ∧
    (Chord.invert stuckChord).2 = stuckChord :=
  ⟨(c4_failure_never_mutates 3 9 6 stuckChord).1 (by decide),
   (c4_failure_never_mutates 3 9 6 stuckChord).2.1 (by decide),
   (c4_failure_never_mutates 3 9 6 stuckChord).2.2.1 (by decide),
   (c4_failure_never_mutates 3 9 6 stuckChord).2.2.2.1 (by decide),
   (c4_failure_never_mutates 3 9 6 stuckChord).2.2.2.2.1 (by decide),
   (c4_failure_never_mutates 3 9 6 stuckChord).2.2.2.2.2 (by decide)⟩

/-- C6: `invert()` fails exactly when fewer than two pitches are present
or the index-0 ("lowest"-position) pitch plus 12 would exceed 126;
otherwise it removes the index-0 pitch and appends its value plus 12 at
the end, keeping the other pitches in relative order. On `[60, 64, 67]`
it yields `[64, 67, 72]`. -/
theorem c6_invert_spec (c : Chord) :
    ((Chord.invert c).1 = false ↔
      c.pitches.length < 2 ∨ c.pitches.headD 0 + 12 > 126) ∧
    ((Chord.invert c).1 = true →
      (Chord.invert c).2 =
        { c with pitches := c.pitches.tail ++ [c.pitches.headD 0 + 12] }) ∧
    (Chord.invert cMajor).1 = true ∧
    (Chord.invert cMajor).2.pitches = [64, 67, 72] := by
  refine ⟨?_, ?_, by decide, by decide⟩ <;>
    · unfold Chord.invert
      split <;> simp_all

/-- Witness for C6: inverting the C-major triad moves 60 up an octave to
the top. -/
theorem c6_witness :
    (Chord.invert cMajor).2 =
      { cMajor with pitches := cMajor.pitches.tail ++ [cMajor.pitches.headD 0 + 12] } :=
  (c6_invert_spec cMajor).2.1 (by decide)

/-- C7: with `triplet` initially clear, `put_in_triplet()` succeeds once
and is rejected on the second call; the duration after both calls is the
one-time 2/3 compression `2 * (d / 3)` (§4.1 divide-then-multiply), which
equals exactly 2/3 of the original — not 4/9 — whenever the original
duration is divisible by 3, and the flag ends up true. -/
theorem c7_triplet_applied_once (c : Chord) (h : c.triplet = false) :
    (Chord.put_in_triplet c).1 = true ∧
    (Chord.put_in_triplet (Chord.put_in_triplet c).2).1 = false ∧
    (Chord.put_in_triplet (Chord.put_in_triplet c).2).2 = (Chord.put_in_triplet c).2 ∧
    (Chord.put_in_triplet (Chord.put_in_triplet c).2).2.duration =
      2 * Int.tdiv c.duration 3 ∧
    (Chord.put_in_triplet (Chord.put_in_triplet c).2).2.triplet = true ∧
    (3 ∣ c.duration →
      3 * (Chord.put_in_triplet (Chord.put_in_triplet c).2).2.duration =
        2 * c.duration) := by
  refine ⟨?_, ?_, ?_, ?_, ?_, ?_⟩
  · simp [Chord.put_in_triplet, h]
  · simp [Chord.put_in_triplet, h]
  · simp [Chord.put_in_triplet, h]
  · simp [Chord.put_in_triplet, h]
  · simp [Chord.put_in_triplet, h]
  · rintro ⟨k, hk⟩
    simp [Chord.put_in_triplet, h]
    rw [hk, Int.mul_tdiv_cancel_left k (by norm_num)]
    ring

/-- Witness for C7: the quarter-note (96-tick) C-major chord compresses to
64 ticks, exactly 2/3, and only once. -/
theorem c7_witness :
    (Chord.put_in_triplet cMajor).1 = true ∧
    (Chord.put_in_triplet (Chord.put_in_triplet cMajor).2).1 = false ∧
    3 * (Chord.put_in_triplet (Chord.put_in_triplet cMajor).2).2.duration =
      2 * cMajor.duration :=
  ⟨(c7_triplet_applied_once cMajor rfl).1,
   (c7_triplet_applied_once cMajor rfl).2.1,
   (c7_triplet_applied_once cMajor rfl).2.2.2.2.2 (by decide)⟩

/-- Counterexample to C2 as stated: on the unsorted chord `[120, 60]` the
highest pitch is 120 and `120 + 12 > 126`, yet `add_octave` returns `true`
(its guard reads the LAST element, 60) and produces `[132, 72]`. -/
theorem c2_counterexample :
    (∀ p ∈ unsortedChord.pitches, p ≤ 120) ∧
    (120 : Int) ∈ unsortedChord.pitches ∧ (120 : Int) + 12 > 126 ∧
    (Chord.add_octave unsortedChord).1 = true ∧
    (Chord.add_octave unsortedChord).2.pitches = [132, 72] := by decide

/-- C2 (amended): `add_octave` fails exactly when the pitch set is empty
or the LAST pitch plus 12 exceeds 126 (the last pitch is the highest only
for sorted sequences), otherwise it adds 12 to every pitch and returns
`true`; `drop_octave` fails exactly when the pitch set is empty or the
FIRST pitch minus 12 is negative, otherwise it subtracts 12 from every
pitch and returns `true`. -/
theorem c2_octave_guards_positional (c : Chord) :
    ((Chord.add_octave c).1 = false ↔
      c.pitches = [] ∨ c.pitches.getLastD 0 + 12 > 126) ∧
    ((Chord.add_octave c).1 = true →
      (Chord.add_octave c).2 =
        { c with pitches := c.pitches.map (fun p => p + 12) }) ∧
    ((Chord.drop_octave c).1 = false ↔
      c.pitches = [] ∨ c.pitches.headD 0 - 12 < 0) ∧
    ((Chord.drop_octave c).1 = true →
      (Chord.drop_octave c).2 =
        { c with pitches := c.pitches.map (fun p => p - 12) }) := by
  refine ⟨?_, ?_, ?_, ?_⟩
  · unfold Chord.add_octave
    split <;> simp_all [List.length_eq_zero]
  · unfold Chord.add_octave
    split <;> simp_all
  · unfold Chord.drop_octave
    split <;> simp_all [List.length_eq_zero]
  · unfold Chord.drop_octave
    split <;> simp_all

/-- Witness for C2 (amended): both octave shifts succeed on the C-major
triad and transpose every pitch. -/
theorem c2_witness :
    (Chord.add_octave cMajor).2 =
      { cMajor with pitches := cMajor.pitches.map (fun p => p + 12) } ∧
    (Chord.drop_octave cMajor).2 =
      { cMajor with pitches := cMajor.pitches.map (fun p => p - 12) } :=
  ⟨(c2_octave_guards_positional cMajor).2.1 (by decide),
   (c2_octave_guards_positional cMajor).2.2.2 (by decide)⟩

/-- C8: `equals` accepts exactly when the pitch sequences are equal
(equal length with pairwise-equal entries — list equality) and every
scalar field agrees; it is reflexive, symmetric and transitive. It is a
pure function by construction (modelled as a Lean function). -/
theorem c8_equals_structural (a b c : Chord) :
    (Chord.equals a b = true ↔
      (a.pitches = b.pitches ∧ a.duration = b.duration ∧ a.triplet = b.triplet ∧
       a.dotted = b.dotted ∧ a.double_dotted = b.double_dotted ∧
       a.staccato = b.staccato ∧ a.tenuto = b.tenuto ∧ a.accent = b.accent ∧
       a.fermata = b.fermata ∧ a.tied = b.tied ∧ a.slurred = b.slurred)) ∧
    Chord.equals a a = true ∧
    (Chord.equals a b = true → Chord.equals b a = true) ∧
    (Chord.equals a b = true → Chord.equals b c = true →
      Chord.equals a c = true) := by
  refine ⟨?_, (equals_eq_true_iff a a).mpr rfl,
          fun h => (equals_eq_true_iff b a).mpr ((equals_eq_true_iff a b).mp h).symm,
          fun h1 h2 => (equals_eq_true_iff a c).mpr
            (((equals_eq_true_iff a b).mp h1).trans ((equals_eq_true_iff b c).mp h2))⟩
  rw [equals_eq_true_iff a b]
  obtain ⟨ap, ad, af1, af2, af3, af4, af5, af6, af7, af8, af9⟩ := a
  obtain ⟨bp, bd, bf1, bf2, bf3, bf4, bf5, bf6, bf7, bf8, bf9⟩ := b
  simp [Chord.mk.injEq]

/-- Witness for C8: transitivity applied at the C-major triad. -/
theorem c8_witness : Chord.equals cMajor cMajor = true :=
  (c8_equals_structural cMajor cMajor cMajor).2.2.2 (by decide) (by decide)

/-- Counterexample to C10 as stated: on a chord with the odd negative
duration −5 (dot flags clear, duration distinct from the boundary
constant), `dot()` truncates toward zero and yields −7, while
`floor(3·(−5)/2) = −8`. -/
theorem c10_counterexample :
    negChord.dotted = false ∧ negChord.double_dotted = false ∧
    negChord.duration = -5 ∧ Odd negChord.duration ∧ negChord.duration ≠ 3 ∧
    (Chord.dot 3 9 negChord).1 = true ∧
    (Chord.dot 3 9 negChord).2.duration = -7 ∧
    Int.fdiv (3 * negChord.duration) 2 = -8 := by decide

/-- C10 (amended): with both dot flags clear, the duration distinct from
the one-twenty-eighth-note constant and odd, `dot()` succeeds and sets the
duration to the truncation of `3·d/2` TOWARD ZERO (`Int.tdiv`); the result
is never an exact 3/2 multiple for odd `d`, and it coincides with
`floor(3·d/2)` when `d` is nonnegative (e.g. 5 becomes 7). -/
theorem c10_dot_truncates_toward_zero (k128 k64d : Int) (c : Chord)
    (h1 : c.dotted = false) (_h2 : c.double_dotted = false)
    (h3 : c.duration ≠ k128) (h4 : Odd c.duration) :
    (Chord.dot k128 k64d c).1 = true ∧
    (Chord.dot k128 k64d c).2.duration = Int.tdiv (3 * c.duration) 2 ∧
    2 * (Chord.dot k128 k64d c).2.duration ≠ 3 * c.duration ∧
    (0 ≤ c.duration →
      (Chord.dot k128 k64d c).2.duration = Int.fdiv (3 * c.duration) 2) := by
  have e : Chord.dot k128 k64d c =
      (true, { c with dotted := true, duration := Int.tdiv (3 * c.duration) 2 }) := by
    simp [Chord.dot, h1, h3]
  rw [e]
  exact ⟨rfl, rfl, odd_dot_not_exact c.duration h4,
         fun hd => tdiv_two_eq_fdiv_two _ (by omega)⟩

/-- Witness for C10 (amended): duration 5 becomes 7 = trunc(7.5). -/
theorem c10_witness :
    (Chord.dot 3 9 oddChord).1 = true ∧
    (Chord.dot 3 9 oddChord).2.duration = Int.tdiv (3 * oddChord.duration) 2 ∧
    2 * (Chord.dot 3 9 oddChord).2.duration ≠ 3 * oddChord.duration ∧
    (0 ≤ oddChord.duration →
      (Chord.dot 3 9 oddChord).2.duration = Int.fdiv (3 * oddChord.duration) 2) :=
  c10_dot_truncates_toward_zero 3 9 oddChord rfl rfl (by decide) (by decide)

/-- C5: when both routes are applicable, dotting twice coincides with the
single `double_dot()` call: both succeed, both set the two dot flags, and
both set the duration to `7 * (d / 4)` — the divide-by-4-then-multiply-
by-7 form of 7/4 — and indeed the two final chords are equal as values. -/
theorem c5_dot_twice_eq_double_dot (k128 k64d k64 : Int) (c : Chord)
    (h1 : c.dotted = false) (h2 : c.double_dotted = false)
    (h3 : c.duration ≠ k128)
    (h4 : Int.tdiv (3 * c.duration) 2 ≠ k64d)
    (h5 : c.duration ≠ k64) :
    (Chord.dot k128 k64d c).1 = true ∧
    (Chord.dot k128 k64d (Chord.dot k128 k64d c).2).1 = true ∧
    (Chord.double_dot k128 k64 c).1 = true ∧
    (Chord.dot k128 k64d (Chord.dot k128 k64d c).2).2.dotted = true ∧
    (Chord.dot k128 k64d (Chord.dot k128 k64d c).2).2.double_dotted = true ∧
    (Chord.dot k128 k64d (Chord.dot k128 k64d c).2).2.duration =
      7 * Int.tdiv c.duration 4 ∧
    (Chord.dot k128 k64d (Chord.dot k128 k64d c).2).2 =
      (Chord.double_dot k128 k64 c).2 := by
  have e1 : Chord.dot k128 k64d c =
      (true, { c with dotted := true, duration := Int.tdiv (3 * c.duration) 2 }) := by
    simp [Chord.dot, h1, h3]
  have e2 : Chord.dot k128 k64d (Chord.dot k128 k64d c).2 =
      (true, { c with dotted := true, double_dotted := true,
                      duration := 7 * Int.tdiv (Int.tdiv (3 * c.duration) 2) 6 }) := by
    rw [e1]
    simp [Chord.dot, h2, h4]
  have e3 : Chord.double_dot k128 k64 c =
      (true, { c with dotted := true, double_dotted := true,
                      duration := 7 * Int.tdiv c.duration 4 }) := by
    simp [Chord.double_dot, h1, h3, h5]
  rw [e2, e3, tdiv_three_halves_then_six]
  exact ⟨by rw [e1], rfl, rfl, rfl, rfl, rfl, rfl⟩

/-- Witness for C5: on the 96-tick C-major chord both routes give
duration 168 = 7/4 · 96 with both dot flags set. -/
theorem c5_witness :
    (Chord.dot 3 9 (Chord.dot 3 9 cMajor).2).2 = (Chord.double_dot 3 6 cMajor).2 :=
  (c5_dot_twice_eq_double_dot 3 9 6 cMajor rfl rfl (by decide) (by decide)
    (by decide)).2.2.2.2.2.2

/-- Counterexample to C1 as stated: the unsorted chord `[120, 60]` has all
pitches in `[0, 126]`, yet `add_octave` neither preserves the range
(it produces 132) nor refuses the mutation. -/
theorem c1_counterexample :
    Chord.pitchesInRange unsortedChord ∧
    (Chord.add_octave unsortedChord).1 = true ∧
    (Chord.add_octave unsortedChord).2.pitches = [132, 72] ∧
    ¬ Chord.pitchesInRange (Chord.add_octave unsortedChord).2 := by decide

/-- C1 (amended): on a chord whose pitch sequence is sorted in
nondecreasing order (so that the last element is the highest pitch and the
first is the lowest) with all pitches in `[0, 126]`, every mutating
operation keeps every pitch in `[0, 126]`, and each of the three
pitch-touching operations refuses (returns `false` with no mutation at
all — no clamping or wrapping) instead of producing an out-of-range
pitch. -/
theorem c1_range_invariant_on_sorted (k128 k64d k64 : Int) (c : Chord)
    (hs : List.Pairwise (fun p q => p ≤ q) c.pitches)
    (hr : Chord.pitchesInRange c) :
    Chord.pitchesInRange (Chord.dot k128 k64d c).2 ∧
    Chord.pitchesInRange (Chord.double_dot k128 k64 c).2 ∧
    Chord.pitchesInRange (Chord.put_in_triplet c).2 ∧
    Chord.pitchesInRange (Chord.add_octave c).2 ∧
    Chord.pitchesInRange (Chord.drop_octave c).2 ∧
    Chord.pitchesInRange (Chord.invert c).2 ∧
    ((Chord.add_octave c).1 = false → (Chord.add_octave c).2 = c) ∧
    ((Chord.drop_octave c).1 = false → (Chord.drop_octave c).2 = c) ∧
    ((Chord.invert c).1 = false → (Chord.invert c).2 = c) := by
  refine ⟨?_, ?_, ?_, ?_, ?_, ?_, add_octave_fail_unchanged c,
          drop_octave_fail_unchanged c, invert_fail_unchanged c⟩
  · unfold Chord.pitchesInRange
    rw [dot_pitches_unchanged]
    exact hr
  · unfold Chord.pitchesInRange
    rw [double_dot_pitches_unchanged]
    exact hr
  · unfold Chord.pitchesInRange
    rw [put_in_triplet_pitches_unchanged]
    exact hr
  · by_cases hc : c.pitches.length = 0 ∨ c.pitches.getLastD 0 + 12 > 126
    · have e : Chord.add_octave c = (false, c) := by
        unfold Chord.add_octave
        rw [if_pos hc]
      rw [e]; exact hr
    · have e : Chord.add_octave c =
          (true, { c with pitches := c.pitches.map (fun p => p + 12) }) := by
        unfold Chord.add_octave
        rw [if_neg hc]
      push_neg at hc
      rw [e]
      intro p hp
      simp only [List.mem_map] at hp
      obtain ⟨q, hq, rfl⟩ := hp
      have hql := sorted_le_getLastD c.pitches 0 hs q hq
      have hqr := hr q hq
      omega
  · by_cases hc : c.pitches.length = 0 ∨ c.pitches.headD 0 - 12 < 0
    · have e : Chord.drop_octave c = (false, c) := by
        unfold Chord.drop_octave
        rw [if_pos hc]
      rw [e]; exact hr
    · have e : Chord.drop_octave c =
          (true, { c with pitches := c.pitches.map (fun p => p - 12) }) := by
        unfold Chord.drop_octave
        rw [if_neg hc]
      push_neg at hc
      rw [e]
      intro p hp
      simp only [List.mem_map] at hp
      obtain ⟨q, hq, rfl⟩ := hp
      have hqh := sorted_headD_le c.pitches 0 hs q hq
      have hqr := hr q hq
      omega
  · by_cases hc : c.pitches.length < 2 ∨ c.pitches.headD 0 + 12 > 126
    · have e : Chord.invert c = (false, c) := by
        unfold Chord.invert
        rw [if_pos hc]
      rw [e]; exact hr
    · have e : Chord.invert c =
          (true, { c with pitches := c.pitches.tail ++ [c.pitches.headD 0 + 12] }) := by
        unfold Chord.invert
        rw [if_neg hc]
      push_neg at hc
      rw [e]
      rcases hps : c.pitches with _ | ⟨x, t⟩
      · rw [hps] at hc
        simp at hc
      · intro p hp
        rw [hps] at hc
        simp only [hps, List.headD_cons, List.tail_cons, List.mem_append,
          List.mem_singleton] at hp
        have hx := hr x (by rw [hps]; exact List.mem_cons_self x t)
        rcases hp with hp | rfl
        · exact hr p (by rw [hps]; exact List.mem_cons_of_mem x hp)
        · simp only [List.headD_cons] at hc
          omega

/-- Witness for C1 (amended): the sorted, in-range C-major triad stays in
range under the three pitch-touching operations. -/
theorem c1_witness :
    Chord.pitchesInRange (Chord.add_octave cMajor).2 ∧
    Chord.pitchesInRange (Chord.drop_octave cMajor).2 ∧
    Chord.pitchesInRange (Chord.invert cMajor).2 :=
  ⟨(c1_range_invariant_on_sorted 3 9 6 cMajor (by decide) (by decide)).2.2.2.1,
   (c1_range_invariant_on_sorted 3 9 6 cMajor (by decide) (by decide)).2.2.2.2.1,
   (c1_range_invariant_on_sorted 3 9 6 cMajor (by decide) (by decide)).2.2.2.2.2.1⟩
